import Mathlib

/-!
# Verification of `find_photo_clusters.py`

A shallow embedding of the two core functions of the repository:

* `parse_time_delta` (source lines 19-49): parses a human duration string
  such as "1 min", "30 sec", "1.5 min" into a `datetime.timedelta`.  The
  resulting duration is modelled as an exact rational number of seconds,
  and Python's `float(...)` literal parsing is modelled (for the decimal
  core of its grammar: optional sign, integer part, optional fractional
  part) by `parseFloatQ`.  The two `ValueError`s the source can raise are
  the constructors of `ParseError`.

* `find_clusters` (source lines 51-104): groups timestamped records into
  chain-linked clusters.  A photo (`osxphotos.PhotoInfo`) is modelled as
  a `Record` with an identity and an optional integer timestamp —
  Python's `datetime` values are exact integer counts of microseconds, as
  is the `timedelta` window, so `ℤ` timestamps with an `ℤ` window model
  the comparisons of the source exactly.  Python's stable
  `sorted(..., key=lambda p: p.date)` is modelled by the stable
  `List.insertionSort` (the spec, §4.2 step 3, states that the relative
  order of equal timestamps is implementation-defined); the two `while`
  loops become the recursive functions `collect` (inner loop, lines
  83-93) and `scanGo` (outer loop, lines 72-102; its extra `Nat`
  argument counts loop iterations, which are bounded by the list length
  because the cursor `i` advances on every pass).
-/

namespace PhotoClusters

/-- A photo record: an identity plus an optional timestamp
(`p.date` in the source, `None` allowed).  Timestamps are integers
(microseconds since an arbitrary epoch, like Python's `datetime`). -/
structure Record where
  pid : Nat
  date : Option ℤ
deriving DecidableEq, Repr

/-- The timestamp of a record, defaulting to `0` for a null date.  It is
only ever applied to records that survived the null filter, where it
agrees with the actual date. -/
def dateD (r : Record) : ℤ := r.date.getD 0

/-! ## Duration parser (`parse_time_delta`, lines 19-49) -/

/-- The two failure modes of `parse_time_delta`: `raise ValueError` for an
empty token list (line 30) and for a non-numeric first token (line 36). -/
inductive ParseError where
  | emptyInput
  | invalidNumericValue
deriving DecidableEq, Repr

/-- Numeric value of a digit string, most significant first. -/
def digitsVal (cs : List Char) : Nat :=
  cs.foldl (fun a c => 10 * a + (c.toNat - Char.toNat '0')) 0

/-- Unsigned decimal literal: digits, optionally followed by a point and
more digits, at least one digit overall.  This is the unsigned core of
what Python's `float(...)` accepts. -/
def parseUnsignedQ (cs : List Char) : Option ℚ :=
  let ip := cs.takeWhile Char.isDigit
  match cs.dropWhile Char.isDigit with
  | [] => if ip.isEmpty then none else some (digitsVal ip : ℚ)
  | c :: fp =>
    if c = '.' then
      if fp.all Char.isDigit && !(ip.isEmpty && fp.isEmpty) then
        some ((digitsVal ip : ℚ) + (digitsVal fp : ℚ) / (10 : ℚ) ^ fp.length)
      else none
    else none

/-- Signed decimal literal, modelling the call `float(parts[0])` at source
line 34 (restricted to the sign/integer/fraction decimal grammar). -/
def parseFloatQ (cs : List Char) : Option ℚ :=
  match cs with
  | c :: rest =>
    if c = '+' then parseUnsignedQ rest
    else if c = '-' then (parseUnsignedQ rest).map (fun q => -q)
    else parseUnsignedQ cs
  | [] => parseUnsignedQ cs

/-- Whitespace for trimming and token splitting, as in Python's
`str.strip()` / `str.split()`. -/
def isSpaceChar (c : Char) : Bool := c.isWhitespace

/-- `pat` is a prefix of `s` — `s.startswith(pat)` in the source. -/
def startsWithChars : List Char → List Char → Bool
  | [], _ => true
  | _ :: _, [] => false
  | p :: ps, c :: cs => p == c && startsWithChars ps cs

/-- Leading and trailing whitespace removed — `str.strip()` (line 24). -/
def trimChars (cs : List Char) : List Char :=
  ((cs.dropWhile isSpaceChar).reverse.dropWhile isSpaceChar).reverse

/-- Lowercased, trimmed character list of the input —
`time_delta_str.lower().strip()` (line 24). -/
def normChars (s : String) : List Char :=
  trimChars (s.data.map Char.toLower)

/-- First whitespace-separated token (`parts[0]`, line 27). -/
def firstTok (cs : List Char) : List Char :=
  cs.takeWhile (fun c => !isSpaceChar c)

/-- The unit token: the remainder after the first token with leading
whitespace removed — `parts[1] if len(parts) > 1 else ""` under
`split(maxsplit=1)` (lines 27, 38). -/
def unitTok (cs : List Char) : List Char :=
  (cs.dropWhile (fun c => !isSpaceChar c)).dropWhile isSpaceChar

/-- Unit resolution (lines 41-49): prefix match on `sec`, `min`,
`hour`/`hr`, and a silent fallback to seconds.  Returns the duration in
seconds for numeric value `v`. -/
def applyUnit (unit : List Char) (v : ℚ) : ℚ :=
  if startsWithChars "sec".data unit then v
  else if startsWithChars "min".data unit then 60 * v
  else if startsWithChars "hour".data unit || startsWithChars "hr".data unit then 3600 * v
  else v

/-- The body of `parse_time_delta` after normalization: token split
(line 27), the empty check (lines 29-30, the trimmed input has zero
tokens exactly when it is empty), `float` conversion (lines 32-36) and
unit resolution (lines 38-49). -/
def parseCore (cs : List Char) : Except ParseError ℚ :=
  if cs.isEmpty then .error .emptyInput
  else
    match parseFloatQ (firstTok cs) with
    | none => .error .invalidNumericValue
    | some v => .ok (applyUnit (unitTok cs) v)

/-- `parse_time_delta` (lines 19-49): the resulting `timedelta` as an
exact rational number of seconds, or a `ParseError`. -/
def parse_time_delta (s : String) : Except ParseError ℚ :=
  parseCore (normChars s)

/-! ## Clustering (`find_clusters`, lines 51-104) -/

/-- The sort order used by `sorted(valid_photos, key=lambda p: p.date)`
(line 63); all records reaching the sort have non-null dates. -/
def dateRel (a b : Record) : Prop := dateD a ≤ dateD b

instance : DecidableRel dateRel := fun a b => inferInstanceAs (Decidable (dateD a ≤ dateD b))

instance : IsTotal Record dateRel := ⟨fun a b => le_total (dateD a) (dateD b)⟩

instance : IsTrans Record dateRel := ⟨fun _ _ _ h h2 => le_trans h h2⟩

/-- Inner `while` loop (lines 83-93): starting from end time `e`
(`cluster_end_time`), take successive records while their date is `≤ e`,
extending `e` to `max e (date + w)` at each step (line 92).  Returns the
records taken (the ones appended to `current_cluster`) and the untouched
remainder (the records from position `j` on when the loop exits). -/
def collect (w : ℤ) : ℤ → List Record → List Record × List Record
  | _, [] => ([], [])
  | e, r :: rs =>
    if dateD r ≤ e then
      let p := collect w (max e (dateD r + w)) rs
      (r :: p.1, p.2)
    else ([], r :: rs)

/-- Outer `while` loop (lines 72-102): scan the sorted records left to
right; seed a candidate cluster at the cursor, run the inner loop, emit
the cluster and jump past it (`i = j`) if it has more than one member
(lines 96-99), otherwise advance the cursor by one (lines 100-102).
The first argument bounds the number of remaining loop iterations; it is
never exhausted when it starts at the list length, because the cursor
strictly advances on every iteration. -/
def scanGo (w : ℤ) : Nat → List Record → List (List Record)
  | _, [] => []
  | 0, _ :: _ => []
  | fuel + 1, r :: rs =>
    if ((collect w (dateD r + w) rs).1).isEmpty then
      scanGo w fuel rs
    else
      (r :: (collect w (dateD r + w) rs).1) :: scanGo w fuel ((collect w (dateD r + w) rs).2)

/-- The scan of the whole `while` loop (lines 72-102), started with
enough iteration budget for its input. -/
def scanClusters (w : ℤ) (l : List Record) : List (List Record) :=
  scanGo w l.length l

/-- The null-date filter (line 58). -/
def valid_photos (photos : List Record) : List Record :=
  photos.filter (fun p => p.date.isSome)

/-- The sort by date (line 63); `List.insertionSort` is stable, like
Python's `sorted` (and the spec leaves the order of timestamp ties
implementation-defined). -/
def sorted_photos (photos : List Record) : List Record :=
  List.insertionSort dateRel (valid_photos photos)

/-- `find_clusters` (lines 51-104): the empty-input early return
(lines 54-55), the all-null early return (lines 59-60), then the scan of
the sorted valid records. -/
def find_clusters (photos : List Record) (time_window : ℤ) : List (List Record) :=
  if photos.isEmpty then []
  else if (valid_photos photos).isEmpty then []
  else scanClusters time_window (sorted_photos photos)

/-- Date of the first record of a cluster (`0` for an empty list, which
never occurs among emitted clusters). -/
def headDate : List Record → ℤ
  | [] => 0
  | r :: _ => dateD r

/-- "Two or more records share the exact same timestamp": some value
`t` is the (non-null) timestamp of at least two record occurrences. -/
def sharedTimestamp (photos : List Record) : Prop :=
  ∃ t : ℤ, 2 ≤ photos.countP (fun r => decide (r.date = some t))

instance : DecidableEq (Except ParseError ℚ) := fun a b =>
  match a, b with
  | .ok x, .ok y =>
    if h : x = y then isTrue (by rw [h])
    else isFalse (by intro hc; injection hc with h2; exact h h2)
  | .error x, .error y =>
    if h : x = y then isTrue (by rw [h])
    else isFalse (by intro hc; injection hc with h2; exact h h2)
  | .ok _, .error _ => isFalse (by intro hc; cases hc)
  | .error _, .ok _ => isFalse (by intro hc; cases hc)

/-- Failure raised by the `datetime.timedelta` constructor itself
(called at lines 42, 44, 46 and 49): an `OverflowError` when the
normalized duration is outside the ±999999999-day range.  This
exception escapes `parse_time_delta` — it is raised after the
`try/except` of lines 32-36 has ended — and, unlike the function's own
two `ValueError`s, it is not caught by the caller's `except ValueError`
at line 140. -/
inductive TimedeltaError where
  | overflowError
deriving DecidableEq, Repr

/-- The CPython `datetime.timedelta` range check, applied to an exact
rational count of seconds: the normalized day count must satisfy
`-999999999 ≤ days ≤ 999999999`, i.e. the seconds must lie in
`[-999999999 * 86400, 1000000000 * 86400)`; outside it the constructor
raises `OverflowError`.  Sub-microsecond quantization and binary
floating-point rounding of the value (relative error about `2 ^ (-52)`)
are not modelled; they can only move this boundary negligibly. -/
def timedeltaCheck (seconds : ℚ) : Except TimedeltaError ℚ :=
  if seconds < -999999999 * 86400 then .error .overflowError
  else if 1000000000 * 86400 ≤ seconds then .error .overflowError
  else .ok seconds

/-- `parse_time_delta` refined with the `timedelta` constructor's own
failure mode: the value pipeline of lines 19-49 (`parse_time_delta`
above) followed by the range check the constructor performs on the
resulting seconds.  A `Sum.inl` error is one of the function's two
`raise ValueError`s; a `Sum.inr` error is the `OverflowError` escaping
the function uncaught. -/
def parse_time_delta_checked (s : String) : Except (ParseError ⊕ TimedeltaError) ℚ :=
  match parse_time_delta s with
  | .error e => .error (Sum.inl e)
  | .ok v =>
    match timedeltaCheck v with
    | .error e => .error (Sum.inr e)
    | .ok q => .ok q

/-! ## Basic lemmas about the loops -/

/-- The records taken by the inner loop and the remainder are a split of
its input. -/
theorem collect_split (w : ℤ) : ∀ (e : ℤ) (l : List Record),
    (collect w e l).1 ++ (collect w e l).2 = l := by
  intro e l
  induction l generalizing e with
  | nil => simp [collect]
  | cons r rs ih =>
    by_cases h : dateD r ≤ e
    · simp [collect, h, ih]
    · simp [collect, h]

/-- The remainder is never longer than the input: the measure fact that
makes the outer loop terminate. -/
theorem collect_snd_length (w e : ℤ) (l : List Record) :
    (collect w e l).2.length ≤ l.length := by
  have h := congrArg List.length (collect_split w e l)
  simp [List.length_append] at h
  omega

/-- The iteration budget of `scanGo` is irrelevant as long as it covers
the input length. -/
theorem scanGo_fuel (w : ℤ) : ∀ (f g : Nat) (l : List Record),
    l.length ≤ f → l.length ≤ g → scanGo w f l = scanGo w g l := by
  intro f
  induction f with
  | zero =>
    intro g l hf _
    match l with
    | [] => cases g <;> rfl
    | r :: rs => simp at hf
  | succ f ih =>
    intro g l hf hg
    match l with
    | [] => cases g <;> rfl
    | r :: rs =>
      match g with
      | 0 => simp at hg
      | g + 1 =>
        simp only [scanGo]
        by_cases h : ((collect w (dateD r + w) rs).1).isEmpty
        · simp only [h, if_true]
          exact ih g rs (by simpa using hf) (by simpa using hg)
        · simp only [h, if_false]
          have hc := collect_snd_length w (dateD r + w) rs
          have hrec := ih g ((collect w (dateD r + w) rs).2)
            (by simp at hf; omega) (by simp at hg; omega)
          simp [hrec]

/-- Unfolding equation of the scan on a nonempty list. -/
theorem scanClusters_cons (w : ℤ) (r : Record) (rs : List Record) :
    scanClusters w (r :: rs) =
      if ((collect w (dateD r + w) rs).1).isEmpty then
        scanClusters w rs
      else
        (r :: (collect w (dateD r + w) rs).1) ::
          scanClusters w ((collect w (dateD r + w) rs).2) := by
  show scanGo w (rs.length + 1) (r :: rs) = _
  simp only [scanGo]
  by_cases h : ((collect w (dateD r + w) rs).1).isEmpty
  · simp [h, scanClusters]
  · simp only [h, if_false, scanClusters]
    rw [scanGo_fuel w rs.length ((collect w (dateD r + w) rs).2).length
      ((collect w (dateD r + w) rs).2) (collect_snd_length w (dateD r + w) rs) le_rfl]

theorem scanClusters_nil (w : ℤ) : scanClusters w [] = [] := rfl

/-- Every cluster the scan emits consists of a seed record together with
the nonempty result of the inner loop run on the records that follow the
seed somewhere in the scanned list. -/
theorem scanClusters_shape (w : ℤ) : ∀ (n : Nat) (l : List Record), l.length ≤ n →
    ∀ c ∈ scanClusters w l,
    ∃ pre seed rest, l = pre ++ seed :: rest ∧
      c = seed :: (collect w (dateD seed + w) rest).1 ∧
      (collect w (dateD seed + w) rest).1 ≠ [] := by
  intro n
  induction n with
  | zero =>
    intro l hl c hc
    match l with
    | [] => simp [scanClusters, scanGo] at hc
    | r :: rs => simp at hl
  | succ n ih =>
    intro l hl c hc
    match l with
    | [] => simp [scanClusters, scanGo] at hc
    | r :: rs =>
      rw [scanClusters_cons] at hc
      by_cases h : ((collect w (dateD r + w) rs).1).isEmpty
      · rw [if_pos h] at hc
        obtain ⟨pre, seed, rest, hsplit, hcl, hne⟩ :=
          ih rs (by simp at hl; omega) c hc
        exact ⟨r :: pre, seed, rest, by simp [hsplit], hcl, hne⟩
      · rw [if_neg h] at hc
        rcases List.mem_cons.mp hc with hc | hc
        · refine ⟨[], r, rs, by simp, hc, ?_⟩
          simpa [List.isEmpty_iff] using h
        · obtain ⟨pre, seed, rest, hsplit, hcl, hne⟩ :=
            ih ((collect w (dateD r + w) rs).2)
              (by have := collect_snd_length w (dateD r + w) rs; simp at hl; omega) c hc
          refine ⟨r :: (collect w (dateD r + w) rs).1 ++ pre, seed, rest, ?_, hcl, hne⟩
          have hr := collect_split w (dateD r + w) rs
          simp only [List.cons_append, List.append_assoc]
          rw [← hsplit, hr]

/-- Shape of the clusters of `find_clusters`: each comes from a seed in
the sorted valid records followed by a nonempty inner-loop run. -/
theorem find_clusters_mem_shape (photos : List Record) (w : ℤ) (c : List Record)
    (hc : c ∈ find_clusters photos w) :
    ∃ pre seed rest, sorted_photos photos = pre ++ seed :: rest ∧
      c = seed :: (collect w (dateD seed + w) rest).1 ∧
      (collect w (dateD seed + w) rest).1 ≠ [] := by
  unfold find_clusters at hc
  by_cases h1 : photos.isEmpty
  · simp [h1] at hc
  · by_cases h2 : (valid_photos photos).isEmpty
    · simp [h1, h2] at hc
    · rw [if_neg h1, if_neg h2] at hc
      exact scanClusters_shape w (sorted_photos photos).length _ le_rfl c hc

/-- A record taken by the inner loop has a date bounded by the running
end time, which is the seed end time extended by `max` over the dates
(plus window) of the records taken before it. -/
theorem collect_le_foldl (w : ℤ) : ∀ (l : List Record) (e : ℤ) (pre suf : List Record)
    (r : Record), (collect w e l).1 = pre ++ r :: suf →
    dateD r ≤ pre.foldl (fun a x => max a (dateD x + w)) e := by
  intro l
  induction l with
  | nil => intro e pre suf r h; simp [collect] at h
  | cons x xs ih =>
    intro e pre suf r h
    by_cases hx : dateD x ≤ e
    · simp only [collect, if_pos hx] at h
      match pre with
      | [] =>
        simp at h
        obtain ⟨hxr, -⟩ := h
        simpa [← hxr] using hx
      | p :: ps =>
        simp at h
        obtain ⟨hxp, ht⟩ := h
        have := ih (max e (dateD x + w)) ps suf r ht
        simpa [List.foldl_cons, ← hxp] using this
    · simp [collect, hx] at h

/-- Anything below a `max`-fold over dates-plus-window is below the base
or below one of the folded dates plus the window. -/
theorem le_foldl_max (w : ℤ) : ∀ (l : List Record) (e x : ℤ),
    x ≤ l.foldl (fun a r => max a (dateD r + w)) e →
    x ≤ e ∨ ∃ a ∈ l, x ≤ dateD a + w := by
  intro l
  induction l with
  | nil => intro e x h; exact Or.inl (by simpa using h)
  | cons r rs ih =>
    intro e x h
    rcases ih (max e (dateD r + w)) x (by simpa using h) with h1 | ⟨a, ha, h1⟩
    · rcases le_max_iff.mp h1 with h2 | h2
      · exact Or.inl h2
      · exact Or.inr ⟨r, List.mem_cons_self r rs, h2⟩
    · exact Or.inr ⟨a, List.mem_cons_of_mem r ha, h1⟩

/-- Chain invariant at the level of the inner loop: every record the
loop takes is within the window of the seed or of an earlier taken
record. -/
theorem collect_chain (w : ℤ) (seed : Record) (l pre suf : List Record) (r : Record)
    (h : (collect w (dateD seed + w) l).1 = pre ++ r :: suf) :
    ∃ a ∈ seed :: pre, dateD r ≤ dateD a + w := by
  have h1 := collect_le_foldl w l (dateD seed + w) pre suf r h
  rcases le_foldl_max w pre (dateD seed + w) (dateD r) h1 with h2 | ⟨a, ha, h2⟩
  · exact ⟨seed, List.mem_cons_self seed pre, h2⟩
  · exact ⟨a, List.mem_cons_of_mem seed ha, h2⟩

/-- The clusters of a scan are built from pairwise-disjoint occurrences
of the scanned list, in order: their concatenation is a sublist of it. -/
theorem scanClusters_flatten_sublist (w : ℤ) : ∀ (n : Nat) (l : List Record),
    l.length ≤ n → List.Sublist (scanClusters w l).flatten l := by
  intro n
  induction n with
  | zero =>
    intro l hl
    match l with
    | [] => simp [scanClusters, scanGo]
    | r :: rs => simp at hl
  | succ n ih =>
    intro l hl
    match l with
    | [] => simp [scanClusters, scanGo]
    | r :: rs =>
      rw [scanClusters_cons]
      by_cases h : ((collect w (dateD r + w) rs).1).isEmpty
      · rw [if_pos h]
        exact List.Sublist.cons r (ih rs (by simp at hl; omega))
      · rw [if_neg h]
        have hr := collect_split w (dateD r + w) rs
        have hrec := ih ((collect w (dateD r + w) rs).2)
          (by have := collect_snd_length w (dateD r + w) rs; simp at hl; omega)
        have step : List.Sublist
            ((r :: (collect w (dateD r + w) rs).1) ++
              (scanClusters w ((collect w (dateD r + w) rs).2)).flatten)
            ((r :: (collect w (dateD r + w) rs).1) ++ (collect w (dateD r + w) rs).2) :=
          List.Sublist.append_left hrec _
        have heq : (r :: (collect w (dateD r + w) rs).1) ++ (collect w (dateD r + w) rs).2
            = r :: rs := by simp [hr]
        rw [List.flatten_cons, ← heq]
        exact step

/-- The concatenation of the clusters of `find_clusters` is a sublist of
the sorted valid records. -/
theorem find_clusters_flatten_sublist (photos : List Record) (w : ℤ) :
    List.Sublist (find_clusters photos w).flatten (sorted_photos photos) := by
  unfold find_clusters
  by_cases h1 : photos.isEmpty
  · simp [h1]
  · by_cases h2 : (valid_photos photos).isEmpty
    · simp [h1, h2]
    · rw [if_neg h1, if_neg h2]
      exact scanClusters_flatten_sublist w (sorted_photos photos).length _ le_rfl

/-- The sorted valid records are a permutation of the valid records. -/
theorem sorted_photos_perm (photos : List Record) :
    (sorted_photos photos).Perm (valid_photos photos) :=
  List.perm_insertionSort dateRel (valid_photos photos)

/-- The sorted valid records are pairwise ordered by date. -/
theorem sorted_photos_pairwise (photos : List Record) :
    List.Pairwise dateRel (sorted_photos photos) :=
  List.sorted_insertionSort dateRel (valid_photos photos)

/-- Records of clusters are records of the input. -/
theorem find_clusters_flatten_subset (photos : List Record) (w : ℤ) :
    ∀ r ∈ (find_clusters photos w).flatten, r ∈ photos := by
  intro r hr
  have h1 : r ∈ sorted_photos photos :=
    (find_clusters_flatten_sublist photos w).subset hr
  have h2 : r ∈ valid_photos photos := (sorted_photos_perm photos).subset h1
  exact List.mem_of_mem_filter h2

/-- Every cluster is a sublist of the concatenation of all clusters. -/
theorem mem_sublist_flatten (c : List Record) (cs : List (List Record)) (hc : c ∈ cs) :
    List.Sublist c cs.flatten := by
  induction cs with
  | nil => simp at hc
  | cons d ds ih =>
    rcases List.mem_cons.mp hc with h | h
    · rw [h, List.flatten_cons]
      exact List.sublist_append_left d ds.flatten
    · rw [List.flatten_cons]
      exact (ih h).trans (List.sublist_append_right d ds.flatten)

/-- If the concatenation of a list of nonempty lists is pairwise ordered
by date, the lists are pairwise ordered by their head dates. -/
theorem pairwise_headDate_of_flatten (cs : List (List Record))
    (hflat : List.Pairwise dateRel cs.flatten) (hne : ∀ c ∈ cs, c ≠ []) :
    List.Pairwise (fun c d => headDate c ≤ headDate d) cs := by
  induction cs with
  | nil => exact List.Pairwise.nil
  | cons c ds ih =>
    rw [List.flatten_cons] at hflat
    obtain ⟨h1, h2, h3⟩ := List.pairwise_append.mp hflat
    refine List.Pairwise.cons ?_ (ih h2 (fun d hd => hne d (List.mem_cons_of_mem c hd)))
    intro d hd
    match hcd : c, d with
    | [], _ => exact absurd rfl (hne [] (List.mem_cons_self _ _))
    | x :: _, [] => exact absurd rfl (hne [] (List.mem_cons_of_mem _ hd))
    | x :: _, y :: _ =>
      have hy : y ∈ ds.flatten := by
        rw [List.mem_flatten]
        exact ⟨y :: _, hd, List.mem_cons_self _ _⟩
      exact h3 x (List.mem_cons_self _ _) y hy

/-- Emitted clusters have at least two records. -/
theorem find_clusters_two_le (photos : List Record) (w : ℤ) :
    ∀ c ∈ find_clusters photos w, 2 ≤ c.length := by
  intro c hc
  obtain ⟨pre, seed, rest, hsplit, hcl, hne⟩ := find_clusters_mem_shape photos w c hc
  rw [hcl]
  match h : (collect w (dateD seed + w) rest).1 with
  | [] => exact absurd h hne
  | x :: xs => simp

/-- A record with a non-null date is `some` of its default-extracted
date. -/
theorem date_eq_some_dateD (r : Record) (h : r.date.isSome = true) :
    r.date = some (dateD r) := by
  match hr : r.date with
  | some t => simp [dateD, hr]
  | none => rw [hr] at h; simp at h

/-- The first record the inner loop takes is within the initial end
time. -/
theorem collect_head_le (w e : ℤ) (l : List Record) (r : Record) (t : List Record)
    (h : (collect w e l).1 = r :: t) : dateD r ≤ e := by
  match l with
  | [] => simp [collect] at h
  | x :: xs =>
    by_cases hx : dateD x ≤ e
    · simp only [collect, if_pos hx, List.cons.injEq] at h
      exact h.1 ▸ hx
    · simp [collect, hx] at h

/-- A list with at least two occurrences satisfying a predicate splits
around two such occurrences in order. -/
theorem countP_two_split (p : Record → Bool) : ∀ (l : List Record),
    2 ≤ l.countP p →
    ∃ l1 a l2 b l3, l = l1 ++ (a :: (l2 ++ (b :: l3))) ∧ p a = true ∧ p b = true := by
  intro l
  induction l with
  | nil => intro h; simp [List.countP_nil] at h
  | cons x xs ih =>
    intro h
    by_cases hx : p x = true
    · rw [List.countP_cons_of_pos p xs hx] at h
      have h1 : 0 < xs.countP p := by omega
      obtain ⟨b, hb, hpb⟩ := List.countP_pos_iff.mp h1
      obtain ⟨l2, l3, hsplit⟩ := List.append_of_mem hb
      exact ⟨[], x, l2, b, l3, by simp [hsplit], hx, hpb⟩
    · rw [List.countP_cons_of_neg p xs hx] at h
      obtain ⟨l1, a, l2, b, l3, hsplit, hpa, hpb⟩ := ih h
      exact ⟨x :: l1, a, l2, b, l3, by simp [hsplit], hpa, hpb⟩

/-- A list with two adjacent occurrences satisfying a predicate has a
predicate count of at least two. -/
theorem two_le_countP_adjacent (p : Record → Bool) (l1 l3 : List Record) (a b : Record)
    (hpa : p a = true) (hpb : p b = true) :
    2 ≤ (l1 ++ (a :: (b :: l3))).countP p := by
  rw [List.countP_append, List.countP_cons_of_pos p _ hpa, List.countP_cons_of_pos p _ hpb]
  omega

/-- If somewhere in the scanned list a record is followed immediately by
one within its window, the scan emits at least one cluster. -/
theorem scanClusters_ne_nil_of_adjacent (w : ℤ) : ∀ (l1 : List Record)
    (a y : Record) (l3 : List Record), dateD y ≤ dateD a + w →
    scanClusters w (l1 ++ a :: y :: l3) ≠ [] := by
  intro l1
  induction l1 with
  | nil =>
    intro a y l3 hy
    rw [List.nil_append, scanClusters_cons]
    have hcol : ∃ t, (collect w (dateD a + w) (y :: l3)).1 = y :: t := by
      simp only [collect, if_pos hy]
      exact ⟨(collect w (max (dateD a + w) (dateD y + w)) l3).1, rfl⟩
    obtain ⟨t, ht⟩ := hcol
    rw [ht]
    simp
  | cons z l1' ih =>
    intro a y l3 hy
    rw [List.cons_append, scanClusters_cons]
    by_cases h : ((collect w (dateD z + w) (l1' ++ a :: y :: l3)).1).isEmpty
    · rw [if_pos h]
      exact ih a y l3 hy
    · rw [if_neg h]
      simp

/-! ## Claim theorems -/

/-- C1: every record in a cluster after the first has at least one
earlier record in the same cluster whose timestamp plus the window is
`≥` its own timestamp (chain-reachability within the cluster). -/
theorem find_clusters_chain_window (photos : List Record) (w : ℤ) (c : List Record)
    (hc : c ∈ find_clusters photos w) (k : Nat) (hk : k + 1 < c.length) :
    ∃ m, ∃ hm : m < c.length, m < k + 1 ∧
      dateD (c.get ⟨k + 1, hk⟩) ≤ dateD (c.get ⟨m, hm⟩) + w := by
  obtain ⟨pre, seed, rest, hsplit, hcl, hne⟩ := find_clusters_mem_shape photos w c hc
  subst hcl
  set t := (collect w (dateD seed + w) rest).1 with ht
  have hkt : k < t.length := by simpa using hk
  have hsplit2 : t = t.take k ++ (t[k] :: t.drop (k + 1)) := by
    rw [← List.drop_eq_getElem_cons hkt, List.take_append_drop]
  obtain ⟨a, ha, hle⟩ := collect_chain w seed rest (t.take k) (t.drop (k + 1)) (t[k])
    (by rw [← ht]; exact hsplit2)
  rcases List.mem_cons.mp ha with rfl | hat
  · refine ⟨0, by simp, by omega, ?_⟩
    simp only [List.get_eq_getElem, List.getElem_cons_succ, List.getElem_cons_zero]
    exact hle
  · obtain ⟨j, hja⟩ := List.mem_iff_getElem?.mp hat
    obtain ⟨hjt, hjeq⟩ := List.getElem?_eq_some_iff.mp hja
    have hjk : j < k := by simp [List.length_take] at hjt; omega
    have hjq : t[j]? = some a := by rw [← List.getElem?_take_of_lt hjk]; exact hja
    obtain ⟨hjt2, hjeq2⟩ := List.getElem?_eq_some_iff.mp hjq
    refine ⟨j + 1, Nat.succ_lt_succ hjt2, by omega, ?_⟩
    simp only [List.get_eq_getElem, List.getElem_cons_succ]
    rw [hjeq2]
    exact hle

/-- C1 witness: concrete two-record cluster under window 1. -/
theorem find_clusters_chain_window_witness :
    ∃ m, ∃ hm : m < ([⟨0, some 0⟩, ⟨1, some 1⟩] : List Record).length, m < 0 + 1 ∧
      dateD (([⟨0, some 0⟩, ⟨1, some 1⟩] : List Record).get ⟨0 + 1, by decide⟩) ≤
        dateD (([⟨0, some 0⟩, ⟨1, some 1⟩] : List Record).get ⟨m, hm⟩) + 1 :=
  find_clusters_chain_window [⟨0, some 0⟩, ⟨1, some 1⟩] 1 [⟨0, some 0⟩, ⟨1, some 1⟩]
    (by decide) 0 (by decide)

/-- C2: clusters are pairwise disjoint at the level of record
occurrences — their concatenation is a sublist of the sorted valid
records, which are a permutation of the null-filtered input — and every
clustered record occurrence comes from the input (records left out are
simply omitted; the function is total, so nothing is reported as an
error). -/
theorem find_clusters_partition (photos : List Record) (w : ℤ) :
    List.Sublist (find_clusters photos w).flatten (sorted_photos photos) ∧
    (sorted_photos photos).Perm (valid_photos photos) ∧
    (∀ r ∈ (find_clusters photos w).flatten, r ∈ photos) :=
  ⟨find_clusters_flatten_sublist photos w, sorted_photos_perm photos,
    find_clusters_flatten_subset photos w⟩

/-- C2 witness: concrete instantiation of the membership conjunct. -/
theorem find_clusters_partition_witness :
    (⟨0, some 0⟩ : Record) ∈ [(⟨0, some 0⟩ : Record), ⟨1, some 1⟩] :=
  (find_clusters_partition [⟨0, some 0⟩, ⟨1, some 1⟩] 1).2.2 ⟨0, some 0⟩ (by decide)

/-- C3: each cluster is sorted ascending by timestamp, and the clusters
appear in ascending order of their first record's timestamp. -/
theorem find_clusters_order (photos : List Record) (w : ℤ) :
    (∀ c ∈ find_clusters photos w, List.Pairwise dateRel c) ∧
    List.Pairwise (fun c d => headDate c ≤ headDate d) (find_clusters photos w) := by
  constructor
  · intro c hc
    have h1 := (mem_sublist_flatten c _ hc).trans (find_clusters_flatten_sublist photos w)
    exact List.Pairwise.sublist h1 (sorted_photos_pairwise photos)
  · apply pairwise_headDate_of_flatten
    · exact List.Pairwise.sublist (find_clusters_flatten_sublist photos w)
        (sorted_photos_pairwise photos)
    · intro c hc hnil
      have h2 := find_clusters_two_le photos w c hc
      rw [hnil] at h2
      simp at h2

/-- C3 witness: concrete instantiation of the intra-cluster sortedness
conjunct. -/
theorem find_clusters_order_witness :
    List.Pairwise dateRel ([⟨0, some 0⟩, ⟨1, some 1⟩] : List Record) :=
  (find_clusters_order [⟨0, some 0⟩, ⟨1, some 1⟩] 1).1
    [⟨0, some 0⟩, ⟨1, some 1⟩] (by decide)

/-- C4: every emitted cluster (before the caller's minimum-size filter)
has at least two records; no singleton is ever emitted. -/
theorem find_clusters_min_size (photos : List Record) (w : ℤ) :
    ∀ c ∈ find_clusters photos w, 2 ≤ c.length := by
  intro c hc
  exact find_clusters_two_le photos w c hc

/-- C4 witness: the concrete cluster has at least two records. -/
theorem find_clusters_min_size_witness :
    2 ≤ ([⟨0, some 0⟩, ⟨1, some 1⟩] : List Record).length :=
  find_clusters_min_size [⟨0, some 0⟩, ⟨1, some 1⟩] 1
    [⟨0, some 0⟩, ⟨1, some 1⟩] (by decide)

/-- C9: the empty input and the all-null input yield an empty cluster
list, and null-dated records never appear in any cluster. -/
theorem find_clusters_null_handling (photos : List Record) (w : ℤ) :
    find_clusters [] w = [] ∧
    ((∀ r ∈ photos, r.date = none) → find_clusters photos w = []) ∧
    (∀ c ∈ find_clusters photos w, ∀ r ∈ c, r.date.isSome = true) := by
  refine ⟨rfl, ?_, ?_⟩
  · intro hall
    unfold find_clusters
    by_cases h1 : photos.isEmpty
    · rw [if_pos h1]
    · have h2 : (valid_photos photos).isEmpty = true := by
        rw [List.isEmpty_iff, valid_photos, List.filter_eq_nil_iff]
        intro a ha
        simp [hall a ha]
      rw [if_neg h1, if_pos (by simp [h2])]
  · intro c hc r hr
    have h1 : r ∈ (find_clusters photos w).flatten := List.mem_flatten.mpr ⟨c, hc, hr⟩
    have h2 : r ∈ valid_photos photos :=
      (sorted_photos_perm photos).subset ((find_clusters_flatten_sublist photos w).subset h1)
    have h3 : r ∈ photos.filter (fun p => p.date.isSome) := h2
    simpa using List.of_mem_filter h3

/-- C9 witness: an input with a single null-dated record yields no
clusters. -/
theorem find_clusters_null_handling_witness :
    find_clusters [(⟨0, none⟩ : Record)] 5 = [] :=
  (find_clusters_null_handling [⟨0, none⟩] 5).2.1 (by decide)

/-- C10: the scanning loop terminates — on every iteration the cursor
strictly advances (the remainder after an emitted cluster is strictly
shorter, as is the tail after a skipped singleton), so any iteration
budget at least the list length computes the full scan. -/
theorem find_clusters_termination (w : ℤ) (r : Record) (rs : List Record) (f : Nat)
    (hf : (r :: rs).length ≤ f) :
    (collect w (dateD r + w) rs).2.length < (r :: rs).length ∧
    rs.length < (r :: rs).length ∧
    scanGo w f (r :: rs) = scanClusters w (r :: rs) := by
  refine ⟨?_, by simp, scanGo_fuel w f (r :: rs).length (r :: rs) hf le_rfl⟩
  have h := collect_snd_length w (dateD r + w) rs
  simp only [List.length_cons]
  omega

/-- C10 witness: concrete two-record input. -/
theorem find_clusters_termination_witness :
    (collect 1 (dateD ⟨0, some 0⟩ + 1) [⟨1, some 1⟩]).2.length <
      ((⟨0, some 0⟩ : Record) :: [⟨1, some 1⟩]).length ∧
    ([(⟨1, some 1⟩ : Record)]).length < ((⟨0, some 0⟩ : Record) :: [⟨1, some 1⟩]).length ∧
    scanGo 1 2 ((⟨0, some 0⟩ : Record) :: [⟨1, some 1⟩]) =
      scanClusters 1 ((⟨0, some 0⟩ : Record) :: [⟨1, some 1⟩]) :=
  find_clusters_termination 1 ⟨0, some 0⟩ [⟨1, some 1⟩] 2 (by decide)

/-- C5: with a zero window, a cluster is emitted exactly when two or
more records share the exact same timestamp; with a negative window, a
cluster forms only when a later timestamp is `≤` an earlier one minus
the window's magnitude.  No special-case rejection occurs: this is the
general `≤` comparison of the algorithm. -/
theorem find_clusters_degenerate_window (photos : List Record) (w : ℤ) :
    (find_clusters photos 0 ≠ [] ↔ sharedTimestamp photos) ∧
    (w < 0 → ∀ c ∈ find_clusters photos w,
      ∃ h1 : 1 < c.length,
        dateD (c.get ⟨1, h1⟩) ≤
          dateD (c.get ⟨0, Nat.lt_of_le_of_lt (Nat.zero_le 1) h1⟩) - |w|) := by
  constructor
  · constructor
    · intro hne0
      obtain ⟨c, hc⟩ := List.exists_mem_of_ne_nil _ hne0
      obtain ⟨pre, seed, rest, hsplit, hcl, hcne⟩ := find_clusters_mem_shape photos 0 c hc
      match hcol : (collect 0 (dateD seed + 0) rest).1 with
      | [] => exact absurd hcol hcne
      | y :: t =>
        have hy : dateD y ≤ dateD seed := by
          have := collect_head_le 0 (dateD seed + 0) rest y t hcol
          omega
        have hrest := collect_split 0 (dateD seed + 0) rest
        rw [hcol] at hrest
        have hs2 : sorted_photos photos =
            pre ++ (seed :: (y :: (t ++ (collect 0 (dateD seed + 0) rest).2))) := by
          conv_lhs => rw [hsplit, ← hrest]
          simp only [List.cons_append, List.append_assoc]
        have hrel : dateRel seed y := by
          have hsort := sorted_photos_pairwise photos
          rw [hs2] at hsort
          have h4 := (List.pairwise_append.mp hsort).2.1
          exact (List.pairwise_cons.mp h4).1 y (List.mem_cons_self _ _)
        have heq : dateD y = dateD seed := le_antisymm hy hrel
        have hseedv : seed ∈ valid_photos photos :=
          (sorted_photos_perm photos).subset (by rw [hs2]; simp)
        have hyv : y ∈ valid_photos photos :=
          (sorted_photos_perm photos).subset (by rw [hs2]; simp)
        have hseedsome : seed.date = some (dateD seed) := by
          have h5 : seed ∈ photos.filter (fun p => p.date.isSome) := hseedv
          exact date_eq_some_dateD seed (by simpa using List.of_mem_filter h5)
        have hysome : y.date = some (dateD seed) := by
          have h5 : y ∈ photos.filter (fun p => p.date.isSome) := hyv
          rw [date_eq_some_dateD y (by simpa using List.of_mem_filter h5), heq]
        refine ⟨dateD seed, ?_⟩
        have hcount_sorted :
            2 ≤ (sorted_photos photos).countP (fun r => decide (r.date = some (dateD seed))) := by
          rw [hs2]
          exact two_le_countP_adjacent _ pre (t ++ (collect 0 (dateD seed + 0) rest).2) seed y
            (by simp [hseedsome]) (by simp [hysome])
        have hcount_valid :
            2 ≤ (valid_photos photos).countP (fun r => decide (r.date = some (dateD seed))) := by
          rw [← (sorted_photos_perm photos).countP_eq]
          exact hcount_sorted
        have hmono : (valid_photos photos).countP (fun r => decide (r.date = some (dateD seed)))
            ≤ photos.countP (fun r => decide (r.date = some (dateD seed))) := by
          rw [valid_photos, List.countP_filter]
          apply List.countP_mono_left
          intro a _ hpa
          simp at hpa
          simp [hpa.1]
        omega
    · rintro ⟨t, hcount⟩
      have hval : 2 ≤ (valid_photos photos).countP (fun r => decide (r.date = some t)) := by
        rw [valid_photos, List.countP_filter]
        refine le_trans hcount (List.countP_mono_left ?_)
        intro a _ hpa
        simp at hpa
        simp [hpa]
      have hsortcount :
          2 ≤ (sorted_photos photos).countP (fun r => decide (r.date = some t)) := by
        rw [(sorted_photos_perm photos).countP_eq]
        exact hval
      obtain ⟨l1, a, l2, b, l3, hsplit, hpa, hpb⟩ := countP_two_split _ _ hsortcount
      have hpa2 : a.date = some t := by simpa using hpa
      have hpb2 : b.date = some t := by simpa using hpb
      have hda : dateD a = t := by simp [dateD, hpa2]
      have hdb : dateD b = t := by simp [dateD, hpb2]
      have hsort := sorted_photos_pairwise photos
      rw [hsplit] at hsort
      have hsort2 : List.Pairwise dateRel (a :: (l2 ++ (b :: l3))) :=
        (List.pairwise_append.mp hsort).2.1
      have hane : a ∈ valid_photos photos :=
        (sorted_photos_perm photos).subset (by rw [hsplit]; simp)
      have h6 : a ∈ photos := by
        have h7 : a ∈ photos.filter (fun p => p.date.isSome) := hane
        exact List.mem_of_mem_filter h7
      have hphotne : photos.isEmpty = false := by
        cases hp : photos with
        | nil => rw [hp] at h6; simp at h6
        | cons x xs => rfl
      have hvalne : ¬((valid_photos photos).isEmpty = true) := by
        rw [List.isEmpty_iff]
        intro h8
        rw [h8] at hane
        simp at hane
      show find_clusters photos 0 ≠ []
      unfold find_clusters
      rw [if_neg (by simp [hphotne]), if_neg hvalne]
      match l2, hsplit, hsort2 with
      | [], hsplit, hsort2 =>
        rw [hsplit]
        simp only [List.nil_append]
        exact scanClusters_ne_nil_of_adjacent 0 l1 a b l3 (by omega)
      | z :: l2', hsplit, hsort2 =>
        have hrelaz : dateRel a z :=
          (List.pairwise_cons.mp hsort2).1 z (by simp)
        have hrelzb : dateRel z b := by
          have h9 := (List.pairwise_cons.mp hsort2).2
          rw [List.cons_append] at h9
          exact (List.pairwise_cons.mp h9).1 b (by simp)
        have hdz : dateD z = t := by
          have h10 : dateD a ≤ dateD z := hrelaz
          have h11 : dateD z ≤ dateD b := hrelzb
          omega
        rw [hsplit]
        simp only [List.cons_append]
        exact scanClusters_ne_nil_of_adjacent 0 l1 a z (l2' ++ b :: l3) (by omega)
  · intro hw c hc
    obtain ⟨pre, seed, rest, hsplit, hcl, hne⟩ := find_clusters_mem_shape photos w c hc
    match hcol : (collect w (dateD seed + w) rest).1 with
    | [] => exact absurd hcol hne
    | y :: t =>
      rw [hcol] at hcl
      subst hcl
      have hy := collect_head_le w (dateD seed + w) rest y t hcol
      refine ⟨by simp, ?_⟩
      simp only [List.get_eq_getElem, List.getElem_cons_succ, List.getElem_cons_zero]
      have habs : |w| = -w := abs_of_neg hw
      omega

/-- C5 witness: two records with the same timestamp form a cluster under
a zero window. -/
theorem find_clusters_degenerate_window_witness :
    find_clusters [(⟨0, some 3⟩ : Record), ⟨1, some 3⟩] 0 ≠ [] :=
  (find_clusters_degenerate_window [⟨0, some 3⟩, ⟨1, some 3⟩] 0).1.mpr ⟨3, by decide⟩

/-! ## Parser lemmas and claims -/

/-- The first element surviving `dropWhile` fails the predicate. -/
theorem dropWhile_head_false (p : Char → Bool) : ∀ (l : List Char) (x : Char) (xs : List Char),
    l.dropWhile p = x :: xs → p x = false := by
  intro l
  induction l with
  | nil => intro x xs h; simp [List.dropWhile] at h
  | cons c cs ih =>
    intro x xs h
    by_cases hc : p c = true
    · rw [List.dropWhile_cons, if_pos hc] at h
      exact ih x xs h
    · rw [List.dropWhile_cons, if_neg hc] at h
      injection h with h1 h2
      rw [← h1]
      simpa using hc

/-- A nonempty trimmed list starts with a non-whitespace character. -/
theorem trimChars_head_not_space (cs : List Char) (x : Char) (xs : List Char)
    (h : trimChars cs = x :: xs) : isSpaceChar x = false := by
  unfold trimChars at h
  have hsplit : ((cs.dropWhile isSpaceChar).reverse.takeWhile isSpaceChar) ++
      ((cs.dropWhile isSpaceChar).reverse.dropWhile isSpaceChar) =
      (cs.dropWhile isSpaceChar).reverse :=
    List.takeWhile_append_dropWhile isSpaceChar (cs.dropWhile isSpaceChar).reverse
  have hd2 : ((cs.dropWhile isSpaceChar).reverse.dropWhile isSpaceChar).reverse ++
      ((cs.dropWhile isSpaceChar).reverse.takeWhile isSpaceChar).reverse =
      cs.dropWhile isSpaceChar := by
    rw [← List.reverse_append, hsplit, List.reverse_reverse]
  rw [h] at hd2
  exact dropWhile_head_false isSpaceChar cs x _ hd2.symm

/-- The trimmed input has a first token exactly when it is nonempty. -/
theorem firstTok_normChars_eq_nil_iff (s : String) :
    firstTok (normChars s) = [] ↔ normChars s = [] := by
  constructor
  · intro h
    match hn : normChars s with
    | [] => rfl
    | x :: xs =>
      have hx : isSpaceChar x = false := trimChars_head_not_space _ x xs hn
      rw [hn] at h
      simp [firstTok, List.takeWhile_cons, hx] at h
  · intro h
    rw [h]
    rfl

/-- C6, code bug at the failing input `"99999999999999 hours"`: the
first token parses as a number and the value pipeline of lines 19-49
yields `3600 * 10 ^ 14` seconds, far beyond `timedelta`'s
±999999999-day range, so the `timedelta` constructor at line 46 raises
an `OverflowError`.  That failure is not one of the parser's two
`ValueError`s (the claim's `ParseError`s) and is not caught by the
caller's `except ValueError`, contradicting the claim that a
`ParseError` occurs exactly on empty or non-numeric input and that no
failure of any other kind originates from the parser. -/
theorem parse_time_delta_overflow_bug :
    parseFloatQ (firstTok (normChars "99999999999999 hours")) = some 99999999999999 ∧
    parse_time_delta "99999999999999 hours" = .ok ((3600 : ℚ) * 99999999999999) ∧
    parse_time_delta_checked "99999999999999 hours" =
      .error (Sum.inr .overflowError) := by
  have h1 : parse_time_delta "99999999999999 hours" =
      .ok (3600 *
        (digitsVal ['9', '9', '9', '9', '9', '9', '9', '9', '9', '9', '9', '9', '9', '9'] : ℚ)) :=
    rfl
  have h2 : (digitsVal ['9', '9', '9', '9', '9', '9', '9', '9', '9', '9', '9', '9', '9', '9'] : ℚ)
      = 99999999999999 := by decide
  have h3 : timedeltaCheck ((3600 : ℚ) * 99999999999999) = .error .overflowError := by
    unfold timedeltaCheck
    rw [if_neg (by norm_num), if_pos (by norm_num)]
  refine ⟨by decide, ?_, ?_⟩
  · rw [h1, h2]
  · simp only [parse_time_delta_checked, h1, h2, h3]

/-- C7: the unit token is resolved by prefix — `sec` gives seconds,
`min` gives minutes, `hour`/`hr` gives hours, and any other unit
(including a missing one) falls back to seconds without error; in
particular `parse_duration("45")` is 45 seconds and
`parse_duration("2 hrs")` is 7200 seconds. -/
theorem parse_time_delta_unit_resolution (s : String) (v : ℚ)
    (hv : parseFloatQ (firstTok (normChars s)) = some v) :
    (startsWithChars "sec".data (unitTok (normChars s)) = true →
      parse_time_delta s = .ok v) ∧
    (startsWithChars "sec".data (unitTok (normChars s)) = false →
     startsWithChars "min".data (unitTok (normChars s)) = true →
      parse_time_delta s = .ok (60 * v)) ∧
    (startsWithChars "sec".data (unitTok (normChars s)) = false →
     startsWithChars "min".data (unitTok (normChars s)) = false →
     (startsWithChars "hour".data (unitTok (normChars s)) = true ∨
      startsWithChars "hr".data (unitTok (normChars s)) = true) →
      parse_time_delta s = .ok (3600 * v)) ∧
    (startsWithChars "sec".data (unitTok (normChars s)) = false →
     startsWithChars "min".data (unitTok (normChars s)) = false →
     startsWithChars "hour".data (unitTok (normChars s)) = false →
     startsWithChars "hr".data (unitTok (normChars s)) = false →
      parse_time_delta s = .ok v) ∧
    parse_time_delta "45" = .ok 45 ∧
    parse_time_delta "2 hrs" = .ok 7200 := by
  have hne : (normChars s).isEmpty = false := by
    match hn : normChars s with
    | [] =>
      rw [hn] at hv
      have h0 : parseFloatQ (firstTok ([] : List Char)) = none := rfl
      rw [h0] at hv
      cases hv
    | a :: l => rfl
  have hok : parse_time_delta s = .ok (applyUnit (unitTok (normChars s)) v) := by
    simp only [parse_time_delta, parseCore]
    rw [if_neg (by simp [hne]), hv]
  refine ⟨?_, ?_, ?_, ?_, ?_, ?_⟩
  · intro h1
    rw [hok]
    simp [applyUnit, h1]
  · intro h1 h2
    rw [hok]
    simp [applyUnit, h1, h2]
  · intro h1 h2 h3
    rw [hok]
    rcases h3 with h3 | h3
    · simp [applyUnit, h1, h2, h3]
    · simp [applyUnit, h1, h2, h3]
  · intro h1 h2 h3 h4
    rw [hok]
    simp [applyUnit, h1, h2, h3, h4]
  · decide
  · have h1 : parse_time_delta "2 hrs" = .ok (3600 * (digitsVal ['2'] : ℚ)) := rfl
    have h2 : (digitsVal ['2'] : ℚ) = 2 := by decide
    rw [h1, h2]
    simp only [Except.ok.injEq]
    norm_num

/-- C7 witness: a `sec` unit resolves to seconds. -/
theorem parse_time_delta_unit_resolution_witness :
    parse_time_delta "3 sec" = .ok 3 :=
  (parse_time_delta_unit_resolution "3 sec" 3 (by decide)).1 (by decide)

/-- C8: parsing `"90 sec"` and parsing `"1.5 min"` both yield exactly 90
seconds, and the two durations are equal. -/
theorem parse_time_delta_90sec_eq_1p5min :
    parse_time_delta "90 sec" = .ok 90 ∧
    parse_time_delta "1.5 min" = .ok 90 ∧
    parse_time_delta "90 sec" = parse_time_delta "1.5 min" := by
  have h90 : parse_time_delta "90 sec" = .ok ((digitsVal ['9', '0'] : ℚ)) := rfl
  have h15 : parse_time_delta "1.5 min" =
      .ok (60 * ((digitsVal ['1'] : ℚ) + (digitsVal ['5'] : ℚ) / (10 : ℚ) ^ (1 : ℕ))) := rfl
  have e1 : (digitsVal ['9', '0'] : ℚ) = 90 := by decide
  have e2 : (digitsVal ['1'] : ℚ) = 1 := by decide
  have e3 : (digitsVal ['5'] : ℚ) = 5 := by decide
  have key : (60 : ℚ) * ((1 : ℚ) + (5 : ℚ) / (10 : ℚ) ^ (1 : ℕ)) = 90 := by norm_num
  refine ⟨?_, ?_, ?_⟩
  · rw [h90, e1]
  · rw [h15, e2, e3, key]
  · rw [h90, e1, h15, e2, e3, key]

end PhotoClusters
